import Mathlib

/-!
Verification of the `proof` delivery-proof generator (Rust sources in
`src/cli.rs`, `src/main.rs`, `src/pdf.rs`, `src/scan.rs`, `src/tui.rs`)
against its natural-language specification.

The embedding is shallow: strings are `List Char`, filesystem paths are
lists of path components, machine integers (`u64`, `usize`) are `Nat`,
and every interaction with the outside world (filesystem metadata, image
decoding, EXIF reading, `ffprobe`/`ffmpeg`/`typst` subprocesses, channel
and terminal I/O) is an oracle recorded in an environment structure, so
that each code path of the Rust source becomes a total Lean function of
the program inputs and those oracles.
-/

namespace DeliveryProof

/-! ### Natural string comparison

`scan.rs` orders assets with `natord::compare`.  The `natord` crate is a
third-party dependency whose code is not part of this repository, so it
is modelled from the spec. -/

/-- ASCII digit test, as used by `natord` (which calls `to_digit(10)`). -/
def isDig (c : Char) : Bool := 48 ≤ c.toNat && c.toNat ≤ 57

/-- Numeric value of a digit run, most significant digit first. -/
def digitsVal (l : List Char) : Nat :=
  l.foldl (fun n c => n * 10 + (c.toNat - 48)) 0

/-- Comparison of two naturals as an `Ordering` (used instead of the
`Ord` instances so that all comparisons in this file are on `Nat`). -/
def cmpNat (m n : Nat) : Ordering := compare m n

/-- Code-point comparison of two characters, the non-numeric base case
of natural comparison. -/
def cmpChar (c d : Char) : Ordering := cmpNat c.toNat d.toNat

/-- Token view of a string for natural comparison: a maximal digit run
(kept as its digit characters) or a single non-digit character. -/
inductive Tok where
  | num (ds : List Char)
  | chr (c : Char)
deriving DecidableEq

/-- Structural tokenizer realising the token view: a leading digit
merges into the digit-run token the rest of the string starts with. -/
def toks : List Char → List Tok
  | [] => []
  | c :: cs =>
    if isDig c then
      match toks cs with
      | Tok.num ds :: ts => Tok.num (c :: ds) :: ts
      | ts => Tok.num [c] :: ts
    else
      Tok.chr c :: toks cs

/-- Comparison of tokens: digit runs compare by numeric value.  A digit
run against a non-digit character compares like the character comparison
of any digit with that character (all ASCII digits sit in the contiguous
band 48–57, so only the side of the band matters). -/
def cmpTok : Tok → Tok → Ordering
  | .num ds, .num es => cmpNat (digitsVal ds) (digitsVal es)
  | .num _, .chr c => if c.toNat < 48 then .gt else .lt
  | .chr c, .num _ => if c.toNat < 48 then .lt else .gt
  | .chr c, .chr d => cmpChar c d

/-- Lexicographic extension of a comparator to lists. -/
def lexCmp (cmp : α → α → Ordering) : List α → List α → Ordering
  | [], [] => .eq
  | [], _ :: _ => .lt
  | _ :: _, [] => .gt
  | a :: as, b :: bs =>
    match cmp a b with
    | .eq => lexCmp cmp as bs
    | o => o

/-- Modelled from the spec: the `natord::compare` natural (human) string
comparison used by `scan.rs` — "numeric runs compare by value, not
lexicographically", all other positions compare by code point.  Defined
as the lexicographic comparison of the token views; the equivalent
run-at-a-time recursion over the characters is `natCompareRec` below,
proved equal in `natCompareRec_eq`. -/
def natCompare (a b : List Char) : Ordering :=
  lexCmp cmpTok (toks a) (toks b)

/-- The run-at-a-time recursive presentation of the natural comparison:
two digit runs compare by value and, when tied, the comparison continues
after both runs; all other positions compare by code point. -/
def natCompareRec : List Char → List Char → Ordering
  | [], [] => .eq
  | [], _ :: _ => .lt
  | _ :: _, [] => .gt
  | a :: as, b :: bs =>
    if isDig a && isDig b then
      match cmpNat (digitsVal ((a :: as).takeWhile isDig))
                   (digitsVal ((b :: bs).takeWhile isDig)) with
      | .eq => natCompareRec ((a :: as).dropWhile isDig) ((b :: bs).dropWhile isDig)
      | o => o
    else
      match cmpChar a b with
      | .eq => natCompareRec as bs
      | o => o
termination_by a b => a.length + b.length
decreasing_by
  · have ha : ((a :: as).dropWhile isDig).length ≤ as.length := by
      simp only [List.dropWhile_cons]
      split
      · exact (List.dropWhile_sublist isDig).length_le
      · simp_all
    have hb : ((b :: bs).dropWhile isDig).length ≤ bs.length := by
      simp only [List.dropWhile_cons]
      split
      · exact (List.dropWhile_sublist isDig).length_le
      · simp_all
    simp only [List.length_cons]
    omega
  · simp only [List.length_cons]; omega

/-- `sort_by`-style Boolean "less or equal" from natural comparison:
`natCompare a b` is not `gt`. -/
def natLe (a b : List Char) : Bool :=
  match natCompare a b with
  | .gt => false
  | _ => true

/-- Insert `a` into `l` before the first element `b` with `le a b`.
Auxiliary to `sortBy`. -/
def orderedInsert (le : α → α → Bool) (a : α) : List α → List α
  | [] => [a]
  | b :: l => if le a b then a :: b :: l else b :: orderedInsert le a l

/-- The model of Rust's stable `sort_by`: a stable insertion sort.  For
a comparator that is a total preorder (as all comparators in this file
are) every stable sort produces the same output, so this models
`sort_by` exactly. -/
def sortBy (le : α → α → Bool) : List α → List α
  | [] => []
  | a :: l => orderedInsert le a (sortBy le l)

/-! ### Paths and the filesystem model

A path is its list of components.  The entries a `walkdir` traversal of
the input directory would yield are part of the model (`InputDir.walk`,
in traversal order); each entry carries its full component list, whose
first component is the root directory's own name (so `walkdir`'s
`filter_entry` hidden-name pruning, which also prunes whole subtrees and
tests the root itself, becomes: every component is non-hidden). -/

/-- A filesystem path, as its list of components. -/
abbrev FsPath := List (List Char)

/-- `Path::file_name()`: the last component, when there is one. -/
def fileName (p : FsPath) : Option (List Char) := p.getLast?

/-- `file_name().unwrap_or_default()` as used by the `discover` sort key. -/
def baseName (p : FsPath) : List Char := (fileName p).getD []

/-- `Path::extension()` on a file name: the portion after the final dot;
none when there is no dot or the only dot is the leading character. -/
def extOf (name : List Char) : Option (List Char) :=
  let pre := (name.reverse.takeWhile (fun c => c ≠ '.')).reverse
  if name.length = pre.length ∨ name.length = pre.length + 1 then none
  else some pre

/-- `Path::extension()`: extension of the file name, when both exist. -/
def pathExt (p : FsPath) : Option (List Char) := (fileName p).bind extOf

/-- `scan.rs`: `enum AssetKind { Image, Video }`. -/
inductive AssetKind where
  | Image
  | Video
deriving DecidableEq

/-- `scan.rs::classify`: case-insensitive extension table. -/
def classify (ext : List Char) : Option AssetKind :=
  let e := ext.map Char.toLower
  if e = "jpg".data ∨ e = "jpeg".data ∨ e = "png".data ∨ e = "tiff".data ∨
      e = "tif".data ∨ e = "webp".data then
    some AssetKind.Image
  else if e = "mp4".data ∨ e = "mov".data ∨ e = "mxf".data then
    some AssetKind.Video
  else
    none

/-- One entry yielded by the `walkdir` traversal. -/
structure FsEntry where
  components : FsPath
  isFile : Bool
deriving DecidableEq

/-- The input directory as seen by `scan.rs::discover`. -/
structure InputDir where
  isDir : Bool
  walk : List FsEntry
deriving DecidableEq

/-- A name is hidden when it starts with the `.` marker. -/
def hiddenName (s : List Char) : Bool :=
  match s with
  | [] => false
  | c :: _ => c == '.'

/-- `filter_entry` keeps an entry iff no component on its path is hidden. -/
def visibleEntry (e : FsEntry) : Bool :=
  e.components.all (fun c => !hiddenName c)

/-- `scan.rs::discover`'s two failure cases (`anyhow::ensure!` messages
"'…' is not a directory" and "No supported assets found in '…'"). -/
inductive DiscoverErr where
  | notADirectory
  | noSupportedAssets
deriving DecidableEq

/-- The accepted files of a traversal, pre-sort: visible files whose
extension classifies, paired with their kind, in traversal order. -/
def accepted (d : InputDir) : List (FsPath × AssetKind) :=
  (d.walk.filter (fun e => visibleEntry e && e.isFile)).filterMap
    (fun e => (pathExt e.components).bind
      (fun ext => (classify ext).map (fun k => (e.components, k))))

/-- The `sort_by` comparator of `discover`, as a Boolean "less or equal":
natural comparison of the file names only (never the full paths). -/
def discLe (x y : FsPath × AssetKind) : Bool :=
  natLe (baseName x.1) (baseName y.1)

/-- `scan.rs::discover`. -/
def discover (d : InputDir) : Except DiscoverErr (List (FsPath × AssetKind)) :=
  if !d.isDir then .error .notADirectory
  else
    let assets := sortBy discLe (accepted d)
    if assets.isEmpty then .error .noSupportedAssets
    else .ok assets

/-! ### The asset processor (`scan.rs::process_one` and helpers)

`Asset.duration` is an `f64` parsed from the probe's duration string;
the parse is an oracle and the parsed value is modelled as a rational.
Per-item error strings built with `anyhow` contexts are modelled by the
constructors of `PErr`, one per `context` site of `scan.rs`. -/

/-- `scan.rs::Asset`. -/
structure Asset where
  filename : List Char
  kind : AssetKind
  width : Option Nat
  height : Option Nat
  file_size : Nat
  format : List Char
  color_space : Option (List Char)
  duration : Option Rat
  codec : Option (List Char)
  thumbnail_path : Option FsPath
deriving DecidableEq

/-- The per-item failure messages of `process_one`/`process_image`:
"no filename", "cannot stat '…'", "cannot decode '…'", "cannot read
dimensions of '…'", "cannot save thumbnail for '…'". -/
inductive PErr where
  | noFilename
  | statErr (p : FsPath)
  | decodeErr (p : FsPath)
  | dimsErr (p : FsPath)
  | saveThumbErr (p : FsPath)
deriving DecidableEq

/-- One stream object of the `ffprobe` JSON (`codec_type`, and the
optional `width`/`height`/`codec_name` fields read from it). -/
structure PStream where
  isVideo : Bool
  width : Option Nat
  height : Option Nat
  codec : Option (List Char)
deriving DecidableEq

/-- A successfully parsed `ffprobe` output: the `streams` array and the
optional `format.duration` string. -/
structure ProbeOut where
  streams : List PStream
  durationStr : Option (List Char)
deriving DecidableEq

/-- Oracles for everything `process_one` reads from the world:
filesystem metadata, image decoding, EXIF, and the external
`ffprobe`/`ffmpeg` tools. -/
structure ProcessEnv where
  /-- `fs::metadata(path)?.len()`; `none` is a stat failure. -/
  stat : FsPath → Option Nat
  /-- `image::open(path)` dimensions (pre-orientation); `none` is a decode failure. -/
  imgOpen : FsPath → Option (Nat × Nat)
  /-- `read_exif_orientation` (already folded to `1` on any read failure). -/
  exifOrientation : FsPath → Nat
  /-- `thumb.save(thumb_path)` success, keyed by source and thumbnail path. -/
  thumbSaveOk : FsPath → FsPath → Bool
  /-- `image::image_dimensions(path)`; `none` is a failure. -/
  imgDims : FsPath → Option (Nat × Nat)
  /-- `read_exif`'s optional ColorSpace field. -/
  exifColorSpace : FsPath → Option (List Char)
  /-- `ffprobe` invocation plus JSON parse; `none` when either fails. -/
  probe : FsPath → Option ProbeOut
  /-- `str::parse::<f64>().ok()` of a duration string. -/
  parseF64 : List Char → Option Rat
  /-- `ffmpeg` frame-extraction exit status success, keyed by source and
  thumbnail path (failure to spawn folds to `false`, as in the source's
  `map_or(false, …)`). -/
  extractOk : FsPath → FsPath → Bool

/-- Effect of `scan.rs::apply_orientation` on the image dimensions:
orientations 5–8 involve a 90°/270° rotation and swap them, all others
leave them unchanged. -/
def orientDims (o : Nat) (wh : Nat × Nat) : Nat × Nat :=
  if o = 5 ∨ o = 6 ∨ o = 7 ∨ o = 8 then (wh.2, wh.1) else wh

/-- `format!("{:04}.jpg", index)`: zero-padded 4-digit index. -/
def thumbFileName (i : Nat) : List Char :=
  let s := Nat.toDigits 10 i
  List.replicate (4 - s.length) '0' ++ s ++ ".jpg".data

/-- `thumb_dir.join(format!("{:04}.jpg", index))`. -/
def thumbPathOf (thumbDir : FsPath) (i : Nat) : FsPath :=
  thumbDir ++ [thumbFileName i]

/-- `scan.rs::read_exif`: best-effort ColorSpace attachment. -/
def readExif (env : ProcessEnv) (a : Asset) (path : FsPath) : Asset :=
  match env.exifColorSpace path with
  | some cs => { a with color_space := some cs }
  | none => a

/-- `scan.rs::process_image`. -/
def process_image (env : ProcessEnv) (a : Asset) (path thumbDir : FsPath)
    (index : Nat) (genThumbnails autoOrient : Bool) : Except PErr Asset :=
  if genThumbnails then
    match env.imgOpen path with
    | none => .error (.decodeErr path)
    | some wh0 =>
      let wh := if autoOrient then orientDims (env.exifOrientation path) wh0 else wh0
      let a1 := { a with width := some wh.1, height := some wh.2 }
      let tp := thumbPathOf thumbDir index
      if env.thumbSaveOk path tp then
        .ok (readExif env { a1 with thumbnail_path := some tp } path)
      else
        .error (.saveThumbErr path)
  else
    match env.imgDims path with
    | none => .error (.dimsErr path)
    | some wh =>
      .ok (readExif env { a with width := some wh.1, height := some wh.2 } path)

/-- First stream of the probe output whose `codec_type` is `"video"`. -/
def firstVideoStream : List PStream → Option PStream
  | [] => none
  | s :: rest => if s.isVideo then some s else firstVideoStream rest

/-- The body of `process_video`'s successful-probe branch: width,
height and codec come from the first video stream (when there is one)
and the duration from parsing `format.duration` (when present). -/
def applyProbe (env : ProcessEnv) (a : Asset) (out : ProbeOut) : Asset :=
  let a2 :=
    match firstVideoStream out.streams with
    | some s => { a with width := s.width, height := s.height, codec := s.codec }
    | none => a
  match out.durationStr with
  | some ds => { a2 with duration := env.parseF64 ds }
  | none => a2

/-- `scan.rs::process_video`: always succeeds; the probe fills
width/height/codec from the first video stream and the duration from
`format.duration`, and a successful `ffmpeg` extraction fills
`thumbnail_path`; every failure just leaves fields absent. -/
def process_video (env : ProcessEnv) (a : Asset) (path thumbDir : FsPath)
    (index : Nat) (genThumbnails : Bool) : Asset :=
  let a1 :=
    match env.probe path with
    | some out => applyProbe env a out
    | none => a
  if genThumbnails then
    let tp := thumbPathOf thumbDir index
    if env.extractOk path tp then { a1 with thumbnail_path := some tp } else a1
  else a1

/-- `scan.rs::process_one`. -/
def process_one (env : ProcessEnv) (path : FsPath) (kind : AssetKind)
    (thumbDir : FsPath) (index : Nat) (genThumbnails autoOrient : Bool) :
    Except PErr Asset :=
  match fileName path with
  | none => .error .noFilename
  | some fname =>
    match env.stat path with
    | none => .error (.statErr path)
    | some size =>
      let fmt := ((pathExt path).getD []).map Char.toUpper
      let a : Asset :=
        { filename := fname, kind := kind, width := none, height := none,
          file_size := size, format := fmt, color_space := none,
          duration := none, codec := none, thumbnail_path := none }
      match kind with
      | .Image => process_image env a path thumbDir index genThumbnails autoOrient
      | .Video => .ok (process_video env a path thumbDir index genThumbnails)

/-! ### Batch processing (`scan.rs::process_all`)

`process_all` fans out over `assets.par_iter().enumerate()` with rayon
and collects into a `Vec<Result<Asset>>`; an indexed rayon collect
stores every item at its own index, so the collected vector is in index
order whatever the completion order.  `deliveredOutcomes`/`collectSlots`
below model that reassembly explicitly, with the completion order as a
parameter. -/

/-- The collected per-index results, in index order. -/
def parResults (env : ProcessEnv) (assets : List (FsPath × AssetKind))
    (thumbDir : FsPath) (genThumbnails autoOrient : Bool) :
    List (Except PErr Asset) :=
  assets.enum.map (fun ipk =>
    process_one env ipk.2.1 ipk.2.2 thumbDir ipk.1 genThumbnails autoOrient)

/-- The success half of the partition loop, in the order collected. -/
def oks : List (Except PErr Asset) → List Asset
  | [] => []
  | .ok a :: rest => a :: oks rest
  | .error _ :: rest => oks rest

/-- The error half of the partition loop, in the order collected. -/
def errs : List (Except PErr Asset) → List PErr
  | [] => []
  | .ok _ :: rest => errs rest
  | .error e :: rest => e :: errs rest

/-- The `sort_by` comparator of `process_all` and of the TUI pipeline:
natural comparison of record file names, as a Boolean "less or equal". -/
def assetLe (a b : Asset) : Bool := natLe a.filename b.filename

/-- `scan.rs::process_all`: partition the collected results and re-sort
the successful records naturally by filename (stable `sort_by`). -/
def process_all (env : ProcessEnv) (assets : List (FsPath × AssetKind))
    (thumbDir : FsPath) (genThumbnails autoOrient : Bool) :
    List Asset × List PErr :=
  let results := parResults env assets thumbDir genThumbnails autoOrient
  (sortBy assetLe (oks results), errs results)

/-- Parallel completion model: the fan-out finishes the items in an
arbitrary order `order` (a permutation of the indices) and delivers each
as the pair of its index and its outcome. -/
def deliveredOutcomes (results : List (Except PErr Asset)) (order : List Nat) :
    List (Nat × Except PErr Asset) :=
  order.filterMap (fun i => (results.get? i).map (fun r => (i, r)))

/-- Rayon's indexed collect: slot `j` of the collected vector receives
the delivered outcome tagged with index `j`. -/
def collectSlots (n : Nat) (ps : List (Nat × Except PErr Asset)) :
    List (Except PErr Asset) :=
  (List.range n).filterMap (fun j => (ps.find? (fun q => q.1 == j)).map (fun q => q.2))

/-- `process_all` with the completion order explicit: deliver the
per-index outcomes in completion order, reassemble by index, then
partition and sort exactly as `process_all`. -/
def process_allPar (env : ProcessEnv) (assets : List (FsPath × AssetKind))
    (thumbDir : FsPath) (genThumbnails autoOrient : Bool) (order : List Nat) :
    List Asset × List PErr :=
  let results := collectSlots assets.length
    (deliveredOutcomes (parResults env assets thumbDir genThumbnails autoOrient) order)
  (sortBy assetLe (oks results), errs results)

/-! ### The event protocol and the background pipeline (`tui.rs`)

`Msg` mirrors `tui.rs::Msg`; the `Failed` payload keeps the structured
per-item error (the source formats it to a string with `{:#}`), and
`Error` keeps the structured fatal error of the pipeline thread. -/

/-- Decidable equality for `Except`, needed to derive it for the run
records below. -/
instance instDecEqExcept {ε α : Type _} [DecidableEq ε] [DecidableEq α] :
    DecidableEq (Except ε α) := fun x y =>
  match x, y with
  | .ok a, .ok b => decidable_of_iff (a = b) (by simp)
  | .error e, .error f => decidable_of_iff (e = f) (by simp)
  | .ok _, .error _ => isFalse (fun h => Except.noConfusion h)
  | .error _, .ok _ => isFalse (fun h => Except.noConfusion h)

/-- The fatal errors a pipeline run can end with: a discovery failure,
a `tempfile::tempdir()` failure, or a `pdf::render` failure (`typst`
missing or `typst compile` failing). -/
inductive RunErr where
  | fromDiscover (e : DiscoverErr)
  | tempdirFail
  | renderFail
deriving DecidableEq

/-- `tui.rs::Msg`, the events sent from the worker to the dashboard. -/
inductive Msg where
  | AssetFound (filename : List Char) (kind : List Char)
  | ScanDone (total : Nat)
  | Processing (index : Nat)
  | Processed (index : Nat)
  | Failed (index : Nat) (error : PErr)
  | Rendering
  | Done (output : List Char) (total : Nat)
  | Error (e : RunErr)
deriving DecidableEq

/-- `file_name().and_then(to_str).unwrap_or("?")` of the pipeline's
`AssetFound` emission. -/
def fnameOrQ (p : FsPath) : List Char := (fileName p).getD ['?']

/-- The lowercase kind string of the pipeline's `AssetFound` emission. -/
def kindStr : AssetKind → List Char
  | .Image => "image".data
  | .Video => "video".data

/-- The inputs of one background pipeline run: the processing oracles,
the input directory, the `tempdir` and `pdf::render` results, the
auto-orient flag and the display form of the output path. -/
structure PipelineEnv where
  penv : ProcessEnv
  dir : InputDir
  tempdirOk : Bool
  thumbDir : FsPath
  renderOk : Bool
  autoOrient : Bool
  outputStr : List Char

/-- The sequential processing loop of `tui.rs::pipeline` from index `i`:
for each asset, a `Processing` event, then `process_one` (with
`gen_thumbnails = true`), then a `Processed` event (collecting the
record) or a `Failed` event.  Returns the emitted events and the
collected records. -/
def seqSteps (env : ProcessEnv) (thumbDir : FsPath) (autoOrient : Bool) :
    List (FsPath × AssetKind) → Nat → List Msg × List Asset
  | [], _ => ([], [])
  | pk :: rest, i =>
    let tail := seqSteps env thumbDir autoOrient rest (i + 1)
    match process_one env pk.1 pk.2 thumbDir i true autoOrient with
    | .ok a => (Msg.Processing i :: Msg.Processed i :: tail.1, a :: tail.2)
    | .error e => (Msg.Processing i :: Msg.Failed i e :: tail.1, tail.2)

/-- Result of one background pipeline run: the events sent (in order),
whether `pdf::render` was invoked, and the thread's return value. -/
structure PipelineRun where
  msgs : List Msg
  renderCalled : Bool
  result : Except RunErr Unit
deriving DecidableEq

/-- `tui.rs::pipeline`: scan, announce each found asset then `ScanDone`,
create the temp dir, process sequentially with per-item events, sort the
records naturally, announce `Rendering`, render, and announce `Done`. -/
def pipeline (env : PipelineEnv) : PipelineRun :=
  match discover env.dir with
  | .error e => { msgs := [], renderCalled := false, result := .error (.fromDiscover e) }
  | .ok found =>
    let founds := found.map (fun pk => Msg.AssetFound (fnameOrQ pk.1) (kindStr pk.2))
    let scanMsgs := founds ++ [Msg.ScanDone found.length]
    if !env.tempdirOk then
      { msgs := scanMsgs, renderCalled := false, result := .error .tempdirFail }
    else
      let steps := seqSteps env.penv env.thumbDir env.autoOrient found 0
      let sorted := sortBy assetLe steps.2
      let preRender := scanMsgs ++ steps.1 ++ [Msg.Rendering]
      if env.renderOk then
        { msgs := preRender ++ [Msg.Done env.outputStr sorted.length],
          renderCalled := true, result := .ok () }
      else
        { msgs := preRender, renderCalled := true, result := .error .renderFail }

/-- The full event stream the dashboard receives: `tui.rs::run` spawns
the pipeline and sends a final `Error` event when it returned an error. -/
def runTrace (env : PipelineEnv) : List Msg :=
  let r := pipeline env
  match r.result with
  | .ok _ => r.msgs
  | .error e => r.msgs ++ [Msg.Error e]

/-! ### The batch-mode driver (`main.rs::run`, non-TUI branch) -/

/-- The fatal errors of a batch run, in the order `main.rs` can hit
them; `noProcessed` is the `anyhow::bail!("No assets could be
processed")`.  `main` prints any of them and exits with status 1. -/
inductive BatchErr where
  | fromDiscover (e : DiscoverErr)
  | tempdirFail
  | noProcessed
  | renderFail
deriving DecidableEq

/-- The inputs of one batch run. -/
structure BatchEnv where
  penv : ProcessEnv
  dir : InputDir
  tempdirOk : Bool
  thumbDir : FsPath
  renderOk : Bool
  autoOrient : Bool
  manifestOnly : Bool

/-- Result of a batch run: whether `pdf::render` was invoked, and the
run's return value. -/
structure BatchRun where
  renderCalled : Bool
  result : Except BatchErr Unit
deriving DecidableEq

/-- `main.rs::run`, non-TUI branch: discover, process all with
`gen_thumbnails = !manifest_only`, bail out when no asset could be
processed, then either print the manifest or render the PDF. -/
def batchRun (env : BatchEnv) : BatchRun :=
  match discover env.dir with
  | .error e => { renderCalled := false, result := .error (.fromDiscover e) }
  | .ok found =>
    if !env.tempdirOk then { renderCalled := false, result := .error .tempdirFail }
    else
      let pr := process_all env.penv found env.thumbDir (!env.manifestOnly) env.autoOrient
      if pr.1.isEmpty then { renderCalled := false, result := .error .noProcessed }
      else if env.manifestOnly then { renderCalled := false, result := .ok () }
      else if env.renderOk then { renderCalled := true, result := .ok () }
      else { renderCalled := true, result := .error .renderFail }

/-! ### The dashboard state machine (`tui.rs::event_loop`)

`App` mirrors `tui.rs::App` (the spinner constant aside); `reduce` is
the fold the drain loop performs on each received event, and `handleKey`
is the local key handling.  `q`/`Esc` and the conditional `Enter` exit
the loop without touching the state (`exitsLoop`). -/

/-- `tui.rs::Phase`. -/
inductive Phase where
  | Scanning
  | Processing
  | Rendering
  | Complete
  | Failed
deriving DecidableEq

/-- `tui.rs::FileStatus` (the `Failed` payload keeps the structured
per-item error the source formats into the string). -/
inductive FileStatus where
  | Pending
  | Processing
  | Done
  | Failed (e : PErr)
deriving DecidableEq

/-- `tui.rs::FileEntry`. -/
structure FileEntry where
  filename : List Char
  kind : List Char
  status : FileStatus
deriving DecidableEq

/-- `tui.rs::App`, the dashboard presentation state. -/
structure App where
  phase : Phase
  files : List FileEntry
  scroll : Nat
  tick : Nat
  total_found : Nat
  processed_count : Nat
  failed_count : Nat
  client : List Char
  date : List Char
  columns : Nat
  output_path : List Char
  error_msg : Option RunErr
deriving DecidableEq

/-- `App::new`. -/
def App.new (client date : List Char) (columns : Nat) : App :=
  { phase := .Scanning, files := [], scroll := 0, tick := 0, total_found := 0,
    processed_count := 0, failed_count := 0, client := client, date := date,
    columns := columns, output_path := [], error_msg := none }

/-- The `app.files.get_mut(index)` pattern: update the status of entry
`index` when it exists, otherwise leave the list unchanged. -/
def setStatus (files : List FileEntry) (i : Nat) (st : FileStatus) :
    List FileEntry :=
  match files.get? i with
  | some f => files.set i { f with status := st }
  | none => files

/-- The event-drain arm of `tui.rs::event_loop`: fold one received
message into the dashboard state. -/
def reduce (s : App) (m : Msg) : App :=
  match m with
  | .AssetFound filename kind =>
    let files := s.files ++ [{ filename := filename, kind := kind,
                               status := FileStatus.Pending }]
    { s with files := files, total_found := files.length }
  | .ScanDone total => { s with total_found := total, phase := .Processing }
  | .Processing index => { s with files := setStatus s.files index .Processing }
  | .Processed index =>
    { s with files := setStatus s.files index .Done,
             processed_count := s.processed_count + 1 }
  | .Failed index e =>
    { s with files := setStatus s.files index (.Failed e),
             failed_count := s.failed_count + 1,
             processed_count := s.processed_count + 1 }
  | .Rendering => { s with phase := .Rendering }
  | .Done output total =>
    { s with phase := .Complete, output_path := output,
             processed_count := total }
  | .Error e => { s with phase := .Failed, error_msg := some e }

/-- The local key inputs the loop distinguishes. -/
inductive Key where
  | quit
  | down
  | up
  | enter
  | other
deriving DecidableEq

/-- The state effect of one key press (`j`/`Down` and `k`/`Up`; the
exit keys do not change the state). -/
def handleKey (s : App) (k : Key) : App :=
  match k with
  | .down =>
    if s.scroll < s.files.length - 1 then { s with scroll := s.scroll + 1 }
    else s
  | .up => { s with scroll := s.scroll - 1 }
  | _ => s

/-- Whether a key press exits the loop: `q`/`Esc` always, `Enter` only
in phase `Complete` or `Failed`. -/
def exitsLoop (s : App) (k : Key) : Bool :=
  match k with
  | .quit => true
  | .enter => s.phase == Phase.Complete || s.phase == Phase.Failed
  | _ => false

/-- One redraw tick of the event loop: at most one key press, then a
drain of all currently available events. -/
def tickStep (s : App) (k : Option Key) (ms : List Msg) : App :=
  ms.foldl reduce (match k with | some key => handleKey s key | none => s)

/-- The event loop run over a sequence of ticks. -/
def runLoop (s : App) : List (Option Key × List Msg) → App
  | [] => s
  | step :: rest => runLoop (tickStep s step.1 step.2) rest

/-- `tui.rs::draw_files`: the first visible row, clamped at draw time;
`areaHeight` is the height of the file-list area, of which two border
rows are not usable (`visible = height - 2`, saturating). -/
def drawStart (s : App) (areaHeight : Nat) : Nat :=
  let visible := areaHeight - 2
  min s.scroll (s.files.length - visible)

/-- The phase an event forces, when it forces one (`ScanDone`,
`Rendering`, `Done` and `Error` set the phase; every other event leaves
it as it was). -/
def eventPhase : Msg → Option Phase
  | .ScanDone _ => some .Processing
  | .Rendering => some .Rendering
  | .Done _ _ => some .Complete
  | .Error _ => some .Failed
  | _ => none

/-! ### Trace predicates for the event-ordering claim -/

/-- Is the message an `AssetFound`? -/
def isAssetFound : Msg → Bool
  | .AssetFound _ _ => true
  | _ => false

/-- Is the message a `ScanDone`? -/
def isScanDone : Msg → Bool
  | .ScanDone _ => true
  | _ => false

/-- Is the message `Rendering`? -/
def isRendering : Msg → Bool
  | .Rendering => true
  | _ => false

/-- Is the message a per-item processing event
(`Processing`/`Processed`/`Failed`)? -/
def isProcMsg : Msg → Bool
  | .Processing _ => true
  | .Processed _ => true
  | .Failed _ _ => true
  | _ => false

/-- Is the message one of the two stream-final events (`Done`/`Error`)? -/
def isFinalMsg : Msg → Bool
  | .Done _ _ => true
  | .Error _ => true
  | _ => false

/-- Is the message `Processing j`? -/
def processingAt (j : Nat) : Msg → Bool
  | .Processing i => i == j
  | _ => false

/-- Is the message `Processed j`? -/
def processedAt (j : Nat) : Msg → Bool
  | .Processed i => i == j
  | _ => false

/-- Is the message a `Failed` at index `j`? -/
def failedAt (j : Nat) : Msg → Bool
  | .Failed i _ => i == j
  | _ => false

/-- Is the message the finishing event of index `j`
(`Processed j` or `Failed j`)? -/
def finishAt (j : Nat) (m : Msg) : Bool := processedAt j m || failedAt j m

/-! ### Concrete inputs used in counterexamples and witnesses -/

/-- A path join for stating full-path comparisons (components joined
with the path separator). -/
def joinPath (p : FsPath) : List Char := List.intercalate "/".data p

/-- The oracle environment in which every external operation fails. -/
def noEnv : ProcessEnv :=
  { stat := fun _ => none, imgOpen := fun _ => none,
    exifOrientation := fun _ => 1, thumbSaveOk := fun _ _ => false,
    imgDims := fun _ => none, exifColorSpace := fun _ => none,
    probe := fun _ => none, parseF64 := fun _ => none,
    extractOk := fun _ _ => false }

/-- `noEnv` with the filesystem stat succeeding. -/
def statEnv : ProcessEnv := { noEnv with stat := fun _ => some 100 }

/-- Two files with the same name in sibling directories. -/
def pTieB : FsPath := ["r".data, "b".data, "s.jpg".data]

/-- See `pTieB`; this one's full path is strictly smaller. -/
def pTieA : FsPath := ["r".data, "a".data, "s.jpg".data]

/-- A directory whose traversal yields the `b`-side file before the
`a`-side file. -/
def exDirTie : InputDir :=
  { isDir := true, walk := [{ components := pTieB, isFile := true },
                            { components := pTieA, isFile := true }] }

/-- A single image file. -/
def pX : FsPath := ["r".data, "x.jpg".data]

/-- A directory with exactly one supported asset. -/
def exDirOne : InputDir := { isDir := true, walk := [{ components := pX, isFile := true }] }

/-- A single video file. -/
def pV : FsPath := ["r".data, "v.mp4".data]

/-- A pipeline environment over `exDirOne` in which the one asset's
processing fails (stat failure) but everything else succeeds. -/
def exPipeFail : PipelineEnv :=
  { penv := noEnv, dir := exDirOne, tempdirOk := true, thumbDir := ["t".data],
    renderOk := true, autoOrient := false, outputStr := "out.pdf".data }

/-- A batch environment over `exDirOne` in which the one asset's
processing fails. -/
def exBatchFail : BatchEnv :=
  { penv := noEnv, dir := exDirOne, tempdirOk := true, thumbDir := ["t".data],
    renderOk := true, autoOrient := false, manifestOnly := false }

/-- A dashboard state in the Complete phase with one pending entry. -/
def exAppComplete : App :=
  { App.new [] [] 4 with
    phase := Phase.Complete,
    files := [{ filename := "a.jpg".data, kind := "image".data,
                status := FileStatus.Pending }] }

/-- Three discovery events followed by two Down key presses. -/
def exScrollSteps : List (Option Key × List Msg) :=
  [(none, [Msg.AssetFound "a".data "image".data,
           Msg.AssetFound "b".data "image".data,
           Msg.AssetFound "c".data "image".data]),
   (some Key.down, []),
   (some Key.down, [])]

/-- Two image assets used by the parallel-order witness. -/
def exTwoAssets : List (FsPath × AssetKind) :=
  [(["r".data, "a1.jpg".data], AssetKind.Image),
   (["r".data, "a2.jpg".data], AssetKind.Image)]

/-! ### Order theory of the natural comparison -/

theorem charToNat_injective {c d : Char} (h : c.toNat = d.toNat) : c = d :=
  Char.ext (UInt32.ext h)

theorem cmpNat_swap (m n : Nat) : cmpNat n m = (cmpNat m n).swap :=
  (Nat.compare_swap m n).symm

theorem cmpNat_refl (n : Nat) : cmpNat n n = .eq := Nat.compare_eq_eq.mpr rfl

theorem cmpNat_eq_eq {m n : Nat} (h : cmpNat m n = .eq) : m = n :=
  Nat.compare_eq_eq.mp h

theorem cmpNat_lt_iff {m n : Nat} : cmpNat m n = .lt ↔ m < n := Nat.compare_eq_lt

theorem cmpChar_digit_nondigit {x y : Char} (hx : isDig x = true)
    (hy : isDig y = false) :
    cmpChar x y = (if y.toNat < 48 then Ordering.gt else Ordering.lt) := by
  simp only [isDig, Bool.and_eq_true, decide_eq_true_eq, Bool.and_eq_false_iff,
    decide_eq_false_iff_not, not_le] at hx hy
  by_cases h : y.toNat < 48
  · simp only [h, if_pos]
    exact Nat.compare_eq_gt.mpr (by omega)
  · simp only [h, if_neg, not_false_iff]
    exact Nat.compare_eq_lt.mpr (by omega)

theorem cmpTok_swap (x y : Tok) : cmpTok y x = (cmpTok x y).swap := by
  cases x <;> cases y <;> simp only [cmpTok]
  · exact cmpNat_swap _ _
  · split <;> rfl
  · split <;> rfl
  · exact cmpNat_swap _ _

theorem cmpTok_refl (x : Tok) : cmpTok x x = .eq := by
  cases x <;> simp only [cmpTok] <;> exact cmpNat_refl _

theorem cmpTok_eq_sub {x y : Tok} (h : cmpTok x y = .eq) :
    ∀ z, cmpTok x z = cmpTok y z := by
  intro z
  cases x with
  | num ds =>
    cases y with
    | num es =>
      simp only [cmpTok] at h
      have hv : digitsVal ds = digitsVal es := cmpNat_eq_eq h
      cases z with
      | num fs => simp only [cmpTok, hv]
      | chr c => rfl
    | chr c =>
      exfalso
      simp only [cmpTok] at h
      split at h <;> cases h
  | chr c =>
    cases y with
    | num es =>
      exfalso
      simp only [cmpTok] at h
      split at h <;> cases h
    | chr d =>
      simp only [cmpTok, cmpChar] at h
      have hv : c.toNat = d.toNat := cmpNat_eq_eq h
      cases z with
      | num fs => simp only [cmpTok, hv]
      | chr e => simp only [cmpTok, cmpChar, hv]

theorem if_gt_lt_eq_lt {b : Prop} [Decidable b]
    (h : (if b then Ordering.gt else Ordering.lt) = .lt) : ¬b := by
  by_contra hb
  rw [if_pos hb] at h
  cases h

theorem if_lt_gt_eq_lt {b : Prop} [Decidable b]
    (h : (if b then Ordering.lt else Ordering.gt) = .lt) : b := by
  by_contra hb
  rw [if_neg hb] at h
  cases h

theorem cmpTok_lt_trans {x y z : Tok} (h1 : cmpTok x y = .lt)
    (h2 : cmpTok y z = .lt) : cmpTok x z = .lt := by
  cases x with
  | num v =>
    cases y with
    | num w =>
      cases z with
      | num u =>
        exact cmpNat_lt_iff.mpr
          (Nat.lt_trans (cmpNat_lt_iff.mp h1) (cmpNat_lt_iff.mp h2))
      | chr c => exact h2
    | chr c =>
      cases z with
      | num u =>
        have hc1 := if_gt_lt_eq_lt h1
        have hc2 := if_lt_gt_eq_lt h2
        exact absurd hc2 hc1
      | chr d =>
        have hc1 := if_gt_lt_eq_lt h1
        have hcd : c.toNat < d.toNat := cmpNat_lt_iff.mp h2
        simp only [cmpTok]
        rw [if_neg (by omega)]
  | chr c =>
    cases y with
    | num w =>
      cases z with
      | num u => exact h1
      | chr d =>
        have hc1 := if_lt_gt_eq_lt h1
        have hc2 := if_gt_lt_eq_lt h2
        exact cmpNat_lt_iff.mpr (by omega)
    | chr d =>
      cases z with
      | num u =>
        have hcd : c.toNat < d.toNat := cmpNat_lt_iff.mp h1
        have hc2 := if_lt_gt_eq_lt h2
        simp only [cmpTok]
        rw [if_pos (by omega)]
      | chr e =>
        exact cmpNat_lt_iff.mpr
          (Nat.lt_trans (cmpNat_lt_iff.mp h1) (cmpNat_lt_iff.mp h2))

theorem lexCmp_swap (cmp : α → α → Ordering)
    (hswap : ∀ x y, cmp y x = (cmp x y).swap) :
    ∀ a b, lexCmp cmp b a = (lexCmp cmp a b).swap := by
  intro a
  induction a with
  | nil => intro b; cases b <;> rfl
  | cons x xs ih =>
    intro b
    cases b with
    | nil => rfl
    | cons y ys =>
      simp only [lexCmp, hswap x y]
      cases cmp x y <;> simp [Ordering.swap, ih ys]

theorem lexCmp_refl (cmp : α → α → Ordering) (hrefl : ∀ x, cmp x x = .eq) :
    ∀ a, lexCmp cmp a a = .eq := by
  intro a
  induction a with
  | nil => rfl
  | cons x xs ih => simp [lexCmp, hrefl x, ih]

theorem lexCmp_trans (cmp : α → α → Ordering)
    (hswap : ∀ x y, cmp y x = (cmp x y).swap)
    (hsub : ∀ x y, cmp x y = .eq → ∀ z, cmp x z = cmp y z)
    (htr : ∀ x y z, cmp x y = .lt → cmp y z = .lt → cmp x z = .lt) :
    ∀ a b c, lexCmp cmp a b ≠ .gt → lexCmp cmp b c ≠ .gt →
      lexCmp cmp a c ≠ .gt := by
  intro a
  induction a with
  | nil =>
    intro b c _ _
    cases c <;> simp [lexCmp]
  | cons x xs ih =>
    intro b c h1 h2
    cases b with
    | nil => exact absurd rfl h1
    | cons y ys =>
      cases c with
      | nil => exact absurd rfl h2
      | cons z zs =>
        simp only [lexCmp] at h1 h2 ⊢
        cases hxy : cmp x y with
        | gt => simp [hxy] at h1
        | eq =>
          simp only [hxy] at h1
          have hxw : ∀ w, cmp x w = cmp y w := hsub x y hxy
          cases hyz : cmp y z with
          | gt => simp [hyz] at h2
          | eq =>
            simp only [hyz] at h2
            simp only [hxw z, hyz]
            exact ih ys zs h1 h2
          | lt => simp [hxw z, hyz]
        | lt =>
          cases hyz : cmp y z with
          | gt => simp [hyz] at h2
          | eq =>
            have hyw : ∀ w, cmp y w = cmp z w := hsub y z hyz
            have hxz : cmp x z = cmp x y := by
              rw [hswap z x, ← hyw x, hswap x y, Ordering.swap_swap]
            simp [hxz, hxy]
          | lt => simp [htr x y z hxy hyz]

theorem cmpChar_nondigit_digit {x y : Char} (hx : isDig x = false)
    (hy : isDig y = true) :
    cmpChar x y = (if x.toNat < 48 then Ordering.lt else Ordering.gt) := by
  simp only [isDig, Bool.and_eq_true, decide_eq_true_eq, Bool.and_eq_false_iff,
    decide_eq_false_iff_not, not_le] at hx hy
  by_cases h : x.toNat < 48
  · simp only [h, if_pos]
    exact Nat.compare_eq_lt.mpr (by omega)
  · simp only [h, if_neg, not_false_iff]
    exact Nat.compare_eq_gt.mpr (by omega)

theorem toks_cons_nondigit {c : Char} {cs : List Char} (h : isDig c = false) :
    toks (c :: cs) = Tok.chr c :: toks cs := by
  rw [toks, if_neg (by simp [h])]

theorem toks_cons_digit {c : Char} {cs : List Char} (h : isDig c = true) :
    toks (c :: cs) = Tok.num ((c :: cs).takeWhile isDig) ::
      toks ((c :: cs).dropWhile isDig) := by
  induction cs generalizing c with
  | nil => simp [toks, h, List.takeWhile_cons, List.dropWhile_cons]
  | cons d ds ih =>
    rw [List.takeWhile_cons, if_pos h, List.dropWhile_cons, if_pos h]
    by_cases hd : isDig d
    · rw [toks, if_pos h, ih hd, List.takeWhile_cons, if_pos hd,
        List.dropWhile_cons, if_pos hd]
    · have hdf : isDig d = false := by simpa using hd
      rw [List.takeWhile_cons, if_neg (by simp [hdf]),
        List.dropWhile_cons, if_neg (by simp [hdf]),
        toks, if_pos h, toks_cons_nondigit hdf]

theorem dropWhile_cons_digit_len {c : Char} {cs : List Char} (h : isDig c = true) :
    ((c :: cs).dropWhile isDig).length ≤ cs.length := by
  rw [List.dropWhile_cons, if_pos h]
  exact (List.dropWhile_sublist isDig).length_le

theorem natCompareRec_eq_aux :
    ∀ (n : Nat) (a b : List Char), a.length + b.length ≤ n →
      natCompareRec a b = lexCmp cmpTok (toks a) (toks b) := by
  intro n
  induction n with
  | zero =>
    intro a b h
    have ha : a = [] := List.length_eq_zero.mp (by omega)
    have hb : b = [] := List.length_eq_zero.mp (by omega)
    subst ha hb
    rw [natCompareRec, toks]
    rfl
  | succ n ih =>
    intro a b h
    match a, b with
    | [], [] => rw [natCompareRec, toks]; rfl
    | [], c :: cs =>
      by_cases hc : isDig c
      · rw [natCompareRec, toks_cons_digit hc, toks]; rfl
      · rw [natCompareRec, toks_cons_nondigit (by simpa using hc), toks]; rfl
    | c :: cs, [] =>
      by_cases hc : isDig c
      · rw [natCompareRec, toks_cons_digit hc, toks]; rfl
      · rw [natCompareRec, toks_cons_nondigit (by simpa using hc), toks]; rfl
    | x :: xs, y :: ys =>
      by_cases hx : isDig x <;> by_cases hy : isDig y
      · rw [natCompareRec, if_pos (by simp [hx, hy]), toks_cons_digit hx,
          toks_cons_digit hy]
        simp only [lexCmp, cmpTok]
        cases hv : cmpNat (digitsVal ((x :: xs).takeWhile isDig))
            (digitsVal ((y :: ys).takeWhile isDig)) with
        | eq =>
          have l1 := @dropWhile_cons_digit_len x xs hx
          have l2 := @dropWhile_cons_digit_len y ys hy
          exact ih _ _ (by simp only [List.length_cons] at h; omega)
        | lt => rfl
        | gt => rfl
      · rw [natCompareRec, if_neg (by simp [hy]), toks_cons_digit hx,
          toks_cons_nondigit (by simpa using hy)]
        rw [cmpChar_digit_nondigit hx (by simpa using hy)]
        simp only [lexCmp, cmpTok]
        by_cases h48 : y.toNat < 48
        · rw [if_pos h48]
        · rw [if_neg h48]
      · rw [natCompareRec, if_neg (by simp [hx]), toks_cons_nondigit (by simpa using hx),
          toks_cons_digit hy]
        rw [cmpChar_nondigit_digit (by simpa using hx) hy]
        simp only [lexCmp, cmpTok]
        by_cases h48 : x.toNat < 48
        · rw [if_pos h48]
        · rw [if_neg h48]
      · rw [natCompareRec, if_neg (by simp [hx]), toks_cons_nondigit (by simpa using hx),
          toks_cons_nondigit (by simpa using hy)]
        simp only [lexCmp, cmpTok]
        cases hv : cmpChar x y with
        | eq => exact ih _ _ (by simp only [List.length_cons] at h; omega)
        | lt => rfl
        | gt => rfl

/-- The run-at-a-time recursion agrees with the token-level definition
of the natural comparison. -/
theorem natCompareRec_eq (a b : List Char) : natCompareRec a b = natCompare a b :=
  natCompareRec_eq_aux (a.length + b.length) a b le_rfl

theorem natCompare_swap (a b : List Char) :
    natCompare b a = (natCompare a b).swap :=
  lexCmp_swap cmpTok cmpTok_swap (toks a) (toks b)

theorem natCompare_self (a : List Char) : natCompare a a = .eq :=
  lexCmp_refl cmpTok cmpTok_refl (toks a)

theorem natLe_iff {a b : List Char} : natLe a b = true ↔ natCompare a b ≠ .gt := by
  unfold natLe
  cases natCompare a b <;> simp

theorem natLe_refl (a : List Char) : natLe a a = true :=
  natLe_iff.mpr (by rw [natCompare_self a]; simp)

theorem natLe_trans {a b c : List Char} (h1 : natLe a b = true)
    (h2 : natLe b c = true) : natLe a c = true := by
  rw [natLe_iff] at h1 h2 ⊢
  exact lexCmp_trans cmpTok cmpTok_swap (fun x y h => cmpTok_eq_sub h)
    (fun x y z => cmpTok_lt_trans) (toks a) (toks b) (toks c) h1 h2

theorem natLe_total (a b : List Char) : (natLe a b || natLe b a) = true := by
  rcases h : natCompare a b with hc | hc | hc
  · have : natLe a b = true := natLe_iff.mpr (by rw [h]; simp)
    simp [this]
  · have : natLe a b = true := natLe_iff.mpr (by rw [h]; simp)
    simp [this]
  · have : natLe b a = true := natLe_iff.mpr (by rw [natCompare_swap, h]; simp [Ordering.swap])
    simp [this]

theorem assetLe_trans (a b c : Asset) : assetLe a b = true → assetLe b c = true →
    assetLe a c = true := fun h1 h2 => natLe_trans h1 h2

theorem assetLe_total (a b : Asset) : (assetLe a b || assetLe b a) = true :=
  natLe_total a.filename b.filename

theorem discLe_trans (a b c : FsPath × AssetKind) : discLe a b = true →
    discLe b c = true → discLe a c = true := fun h1 h2 => natLe_trans h1 h2

theorem discLe_total (a b : FsPath × AssetKind) : (discLe a b || discLe b a) = true :=
  natLe_total (baseName a.1) (baseName b.1)

/-! ### Properties of the stable sort -/

theorem orderedInsert_length (le : α → α → Bool) (a : α) (l : List α) :
    (orderedInsert le a l).length = l.length + 1 := by
  induction l with
  | nil => rfl
  | cons b l ih =>
    simp only [orderedInsert]
    split <;> simp [ih]

theorem sortBy_length (le : α → α → Bool) (l : List α) :
    (sortBy le l).length = l.length := by
  induction l with
  | nil => rfl
  | cons a l ih => simp [sortBy, orderedInsert_length, ih]

theorem orderedInsert_perm (le : α → α → Bool) (a : α) (l : List α) :
    (orderedInsert le a l).Perm (a :: l) := by
  induction l with
  | nil => exact List.Perm.refl _
  | cons b l ih =>
    simp only [orderedInsert]
    split
    · exact List.Perm.refl _
    · exact (ih.cons b).trans (List.Perm.swap a b l)

theorem sortBy_perm (le : α → α → Bool) (l : List α) :
    (sortBy le l).Perm l := by
  induction l with
  | nil => exact List.Perm.refl _
  | cons a l ih =>
    exact (orderedInsert_perm le a (sortBy le l)).trans (ih.cons a)

theorem orderedInsert_pairwise (le : α → α → Bool)
    (htot : ∀ x y, (le x y || le y x) = true)
    (htr : ∀ x y z, le x y = true → le y z = true → le x z = true)
    (a : α) (l : List α) (h : l.Pairwise (fun x y => le x y = true)) :
    (orderedInsert le a l).Pairwise (fun x y => le x y = true) := by
  induction l with
  | nil => simp [orderedInsert]
  | cons b l ih =>
    simp only [orderedInsert]
    split
    · rename_i hab
      refine List.Pairwise.cons ?_ h
      intro x hx
      rcases List.mem_cons.mp hx with rfl | hx
      · exact hab
      · exact htr a b x hab (List.rel_of_pairwise_cons h hx)
    · rename_i hab
      have hba : le b a = true := by
        rcases Bool.or_eq_true_iff.mp (htot a b) with h1 | h1
        · exact absurd h1 hab
        · exact h1
      refine List.Pairwise.cons ?_ (ih h.of_cons)
      intro x hx
      rcases List.mem_cons.mp ((orderedInsert_perm le a l).mem_iff.mp hx) with rfl | hx
      · exact hba
      · exact List.rel_of_pairwise_cons h hx

theorem sortBy_pairwise (le : α → α → Bool)
    (htot : ∀ x y, (le x y || le y x) = true)
    (htr : ∀ x y z, le x y = true → le y z = true → le x z = true)
    (l : List α) :
    (sortBy le l).Pairwise (fun x y => le x y = true) := by
  induction l with
  | nil => simp [sortBy]
  | cons a l ih => exact orderedInsert_pairwise le htot htr a _ ih

theorem filter_orderedInsert_neg (le : α → α → Bool) (p : α → Bool) (a : α)
    (hpa : p a = false) (l : List α) :
    (orderedInsert le a l).filter p = l.filter p := by
  induction l with
  | nil => simp [orderedInsert, hpa]
  | cons b l ih =>
    simp only [orderedInsert]
    split
    · simp [List.filter_cons, hpa]
    · simp only [List.filter_cons, ih]

theorem filter_orderedInsert_pos (le : α → α → Bool) (p : α → Bool) (a : α)
    (hpa : p a = true) :
    ∀ l, (∀ b ∈ l, p b = true → le a b = true) →
      (orderedInsert le a l).filter p = a :: l.filter p := by
  intro l
  induction l with
  | nil =>
    intro _
    simp [orderedInsert, hpa]
  | cons b l ih =>
    intro hins
    simp only [orderedInsert]
    split
    · simp [List.filter_cons, hpa]
    · rename_i hab
      have hpb : p b = false := by
        cases hb : p b
        · rfl
        · exact absurd (hins b (List.mem_cons_self b l) hb) hab
      rw [List.filter_cons, if_neg (by simp [hpb]), List.filter_cons,
        if_neg (by simp [hpb])]
      exact ih (fun x hx hpx => hins x (List.mem_cons_of_mem b hx) hpx)

/-- Stability of the sort on any class of mutually tied elements: the
subsequence of elements satisfying `p` is unchanged by sorting when all
`p`-elements compare less-or-equal to each other. -/
theorem filter_sortBy_tied (le : α → α → Bool) (p : α → Bool)
    (htied : ∀ x y, p x = true → p y = true → le x y = true) :
    ∀ l, (sortBy le l).filter p = l.filter p := by
  intro l
  induction l with
  | nil => rfl
  | cons a l ih =>
    simp only [sortBy]
    cases hpa : p a
    · rw [filter_orderedInsert_neg le p a hpa, ih, List.filter_cons,
        if_neg (by simp [hpa])]
    · rw [filter_orderedInsert_pos le p a hpa _
        (fun b _ hb => htied a b hpa hb), ih, List.filter_cons,
        if_pos (by simp [hpa])]

/-! ### The dashboard reducer: claims C1, C9, C10 -/

theorem setStatus_length (files : List FileEntry) (i : Nat) (st : FileStatus) :
    (setStatus files i st).length = files.length := by
  unfold setStatus
  cases h : files.get? i <;> simp [List.length_set]

theorem reduce_scroll_eq (s : App) (m : Msg) : (reduce s m).scroll = s.scroll := by
  cases m <;> rfl

theorem reduce_files_mono (s : App) (m : Msg) :
    s.files.length ≤ (reduce s m).files.length := by
  cases m <;> simp [reduce, setStatus_length]

theorem foldl_reduce_scroll_inv (ms : List Msg) (s : App)
    (h : s.scroll ≤ s.files.length - 1) :
    (ms.foldl reduce s).scroll ≤ (ms.foldl reduce s).files.length - 1 := by
  induction ms generalizing s with
  | nil => exact h
  | cons m rest ih =>
    simp only [List.foldl_cons]
    refine ih (reduce s m) ?_
    have h1 := reduce_scroll_eq s m
    have h2 := reduce_files_mono s m
    omega

theorem handleKey_scroll_inv (s : App) (k : Key)
    (h : s.scroll ≤ s.files.length - 1) :
    (handleKey s k).scroll ≤ (handleKey s k).files.length - 1 := by
  cases k <;> simp only [handleKey]
  · exact h
  · split
    · rename_i hlt
      show s.scroll + 1 ≤ s.files.length - 1
      omega
    · exact h
  · show s.scroll - 1 ≤ s.files.length - 1
    omega
  · exact h
  · exact h

theorem tickStep_scroll_inv (s : App) (k : Option Key) (ms : List Msg)
    (h : s.scroll ≤ s.files.length - 1) :
    (tickStep s k ms).scroll ≤ (tickStep s k ms).files.length - 1 := by
  unfold tickStep
  cases k with
  | none => exact foldl_reduce_scroll_inv ms s h
  | some key => exact foldl_reduce_scroll_inv ms _ (handleKey_scroll_inv s key h)

theorem runLoop_scroll_inv (steps : List (Option Key × List Msg)) (s : App)
    (h : s.scroll ≤ s.files.length - 1) :
    (runLoop s steps).scroll ≤ (runLoop s steps).files.length - 1 := by
  induction steps generalizing s with
  | nil => exact h
  | cons step rest ih =>
    simp only [runLoop]
    exact ih _ (tickStep_scroll_inv s step.1 step.2 h)

/-- C9 (corrected): the stored scroll offset is only clamped to
`[0, max(0, entryCount - 1)]` by the key handling — over any run of the
loop from the initial state it stays within that interval — while the
interval `[0, max(0, entryCount - visibleRows)]` claimed by the spec is
enforced only on the draw-time start row, which `draw_files` clamps to
`entryCount - visibleRows` (with `visibleRows = areaHeight - 2`); all
bounds are saturating, so the lower bound 0 is automatic. -/
theorem c9_scroll_clamp_amended (client date : List Char) (columns : Nat)
    (steps : List (Option Key × List Msg)) (areaHeight : Nat) :
    (runLoop (App.new client date columns) steps).scroll ≤
      (runLoop (App.new client date columns) steps).files.length - 1 ∧
    drawStart (runLoop (App.new client date columns) steps) areaHeight ≤
      (runLoop (App.new client date columns) steps).files.length -
        (areaHeight - 2) := by
  constructor
  · exact runLoop_scroll_inv steps (App.new client date columns) (by simp [App.new])
  · exact Nat.min_le_right _ _

/-- C9, counterexample to the claim as stated: after three discovery
events and two Down presses the stored view offset is 2, outside the
claimed interval `[0, max(0, entryCount - visibleRows)] = [0, 1]` for
3 entries and 2 visible rows. -/
theorem c9_scroll_counterexample :
    (runLoop (App.new [] [] 4) exScrollSteps).scroll = 2 ∧
    (runLoop (App.new [] [] 4) exScrollSteps).files.length = 3 ∧
    ¬((runLoop (App.new [] [] 4) exScrollSteps).scroll ≤ max 0 (3 - 2)) := by
  decide

/-- C10 (confirmed): on an out-of-range index the reducer is total and
leaves every entry unchanged, yet `Processed` still increments the
processed counter and `Failed` both counters, so the counters can exceed
the number of entries. -/
theorem c10_out_of_range_events (s : App) (i : Nat) (e : PErr)
    (h : s.files.length ≤ i) :
    reduce s (Msg.Processing i) = s ∧
    reduce s (Msg.Processed i) =
      { s with processed_count := s.processed_count + 1 } ∧
    reduce s (Msg.Failed i e) =
      { s with failed_count := s.failed_count + 1,
               processed_count := s.processed_count + 1 } := by
  have hs : ∀ st, setStatus s.files i st = s.files := fun st => by
    unfold setStatus
    rw [List.get?_eq_none.mpr h]
  refine ⟨?_, ?_, ?_⟩ <;> simp [reduce, hs]

/-- C10, witness: in the initial state (no entries) the index 0 is out
of range, and a `Processed 0` event still bumps the processed counter to
1, exceeding the 0 entries. -/
theorem c10_out_of_range_events_witness :
    (App.new [] [] 4).files.length ≤ 0 ∧
    reduce (App.new [] [] 4) (Msg.Processed 0) =
      { App.new [] [] 4 with processed_count := 1 } ∧
    (App.new [] [] 4).files.length <
      (reduce (App.new [] [] 4) (Msg.Processed 0)).processed_count := by
  refine ⟨by decide, ?_, by decide⟩
  exact (c10_out_of_range_events (App.new [] [] 4) 0 PErr.noFilename
    (by decide)).2.1

/-- C1 (corrected): the reducer is phase-oblivious — it applies every
event identically in every phase: the non-phase fields of the result do
not depend on the incoming phase, and the resulting phase is forced by
the event when the event carries one (`ScanDone`, `Rendering`, `Done`,
`Error`) and is the incoming phase otherwise.  `Complete` and `Failed`
are therefore not terminal inside the reducer; late events are only
absent because the pipeline sends `Done`/`Error` last (claim C4). -/
theorem c1_reduce_phase_oblivious (s : App) (p : Phase) (m : Msg) :
    reduce { s with phase := p } m =
      { reduce s m with phase := (eventPhase m).getD p } := by
  cases m <;> rfl

/-- C1, counterexample to the claim as stated: a `Processed 0` event
arriving while the phase is `Complete` changes the presentation state
(the entry status and the processed counter both move). -/
theorem c1_terminal_counterexample :
    reduce exAppComplete (Msg.Processed 0) ≠ exAppComplete := by
  decide

/-! ### Claims C3 and C8: outcome cardinality and discovery failures -/

theorem oks_errs_length (rs : List (Except PErr Asset)) :
    (oks rs).length + (errs rs).length = rs.length := by
  induction rs with
  | nil => rfl
  | cons r rest ih =>
    cases r <;> simp only [oks, errs, List.length_cons] <;> omega

/-- C3 (confirmed): `process_all` produces exactly one outcome per
asset — the successful records and the error messages together number
exactly the discovered assets. -/
theorem c3_outcome_cardinality (env : ProcessEnv)
    (assets : List (FsPath × AssetKind)) (thumbDir : FsPath) (g ao : Bool) :
    (process_all env assets thumbDir g ao).1.length +
      (process_all env assets thumbDir g ao).2.length = assets.length := by
  unfold process_all
  simp only [sortBy_length]
  rw [oks_errs_length]
  unfold parResults
  simp [List.enum_length]

theorem sortBy_discLe_eq_nil_iff {l : List (FsPath × AssetKind)} :
    sortBy discLe l = [] ↔ l = [] := by
  constructor
  · intro h
    have hl := sortBy_length discLe l
    rw [h] at hl
    exact List.length_eq_zero.mp hl.symm
  · intro h
    subst h
    rfl

/-- C8 (confirmed): `discover` fails with `NotADirectory` exactly when
the input is not an existing directory, fails with `NoSupportedAssets`
exactly when the filtered set is empty, and otherwise returns the
non-empty asset list ordered by the natural-sort comparator. -/
theorem c8_discover_failure_cases (d : InputDir) :
    (discover d = .error .notADirectory ↔ d.isDir = false) ∧
    (discover d = .error .noSupportedAssets ↔
      (d.isDir = true ∧ accepted d = [])) ∧
    (∀ l, discover d = .ok l →
      d.isDir = true ∧ l ≠ [] ∧ l = sortBy discLe (accepted d)) := by
  by_cases hd : d.isDir
  · have hform : discover d =
        (if (sortBy discLe (accepted d)).isEmpty
          then Except.error DiscoverErr.noSupportedAssets
          else Except.ok (sortBy discLe (accepted d))) := by
      unfold discover
      rw [hd]
      rfl
    by_cases he : sortBy discLe (accepted d) = []
    · rw [hform, if_pos (by simp [he])]
      refine ⟨?_, ?_, ?_⟩
      · simp [hd]
      · simp [hd, sortBy_discLe_eq_nil_iff.mp he]
      · intro l h
        cases h
    · rw [hform, if_neg (by simp [he])]
      refine ⟨?_, ?_, ?_⟩
      · simp [hd]
      · have hacc : accepted d ≠ [] :=
          fun hh => he (sortBy_discLe_eq_nil_iff.mpr hh)
        simp [hacc]
      · intro l h
        injection h with hl
        exact ⟨hd, fun hnil => he (hl.trans hnil), hl.symm⟩
  · have hdf : d.isDir = false := by simpa using hd
    have hform : discover d = Except.error DiscoverErr.notADirectory := by
      unfold discover
      rw [hdf]
      rfl
    rw [hform]
    refine ⟨by simp [hdf], by simp [hdf], ?_⟩
    intro l h
    cases h

/-- C8, witness: a directory with one supported asset is accepted, and
the returned list is the non-empty sorted accepted set. -/
theorem c8_discover_failure_cases_witness :
    exDirOne.isDir = true ∧
    discover exDirOne = .ok [(pX, AssetKind.Image)] ∧
    [(pX, AssetKind.Image)] ≠ ([] : List (FsPath × AssetKind)) ∧
    [(pX, AssetKind.Image)] = sortBy discLe (accepted exDirOne) := by
  have h := (c8_discover_failure_cases exDirOne).2.2
    [(pX, AssetKind.Image)] (by decide)
  exact ⟨h.1, by decide, h.2.1, h.2.2⟩

/-! ### Claim C2: natural ordering of discovery -/

theorem discover_ok_sortBy {d : InputDir} {l : List (FsPath × AssetKind)}
    (h : discover d = .ok l) : l = sortBy discLe (accepted d) := by
  by_cases hd : d.isDir
  · have h2 : (if (sortBy discLe (accepted d)).isEmpty
        then Except.error DiscoverErr.noSupportedAssets
        else Except.ok (sortBy discLe (accepted d))) = Except.ok l := by
      rw [← h]
      unfold discover
      rw [hd]
      rfl
    split at h2
    · cases h2
    · injection h2 with hh
      exact hh.symm
  · have hdf : d.isDir = false := by simpa using hd
    have h2 : (Except.error DiscoverErr.notADirectory :
        Except DiscoverErr (List (FsPath × AssetKind))) = Except.ok l := by
      rw [← h]
      unfold discover
      rw [hdf]
      rfl
    cases h2

/-- C2 (corrected): discovery orders the accepted files by natural
comparison on filename — the returned list is sorted under `discLe`, is
a permutation of the accepted set, and is deterministic given the
traversal — but ties between equal filenames keep the traversal
(pre-sort) order, because the stable sort's comparator reads only the
filename; the full path is never compared. -/
theorem c2_discover_natural_sorted_stable (d : InputDir)
    (l : List (FsPath × AssetKind)) (h : discover d = .ok l) :
    l.Pairwise (fun x y => discLe x y = true) ∧
    l.Perm (accepted d) ∧
    (∀ name, l.filter (fun pk => baseName pk.1 == name) =
      (accepted d).filter (fun pk => baseName pk.1 == name)) := by
  obtain rfl := discover_ok_sortBy h
  refine ⟨sortBy_pairwise discLe discLe_total (fun x y z => discLe_trans x y z) _,
    sortBy_perm discLe _, ?_⟩
  intro name
  refine filter_sortBy_tied discLe (fun pk => baseName pk.1 == name) ?_ _
  intro x y hx hy
  have hx1 : baseName x.1 = name := by simpa using hx
  have hy1 : baseName y.1 = name := by simpa using hy
  unfold discLe
  rw [hx1, hy1]
  exact natLe_refl name

/-- C2, witness: on a directory with one supported asset the output is
sorted and its filename class keeps traversal order. -/
theorem c2_discover_natural_sorted_stable_witness :
    ([(pTieB, AssetKind.Image), (pTieA, AssetKind.Image)] :
        List (FsPath × AssetKind)).Pairwise (fun x y => discLe x y = true) ∧
    ([(pTieB, AssetKind.Image), (pTieA, AssetKind.Image)] :
        List (FsPath × AssetKind)).filter
        (fun pk => baseName pk.1 == "s.jpg".data) =
      (accepted exDirTie).filter (fun pk => baseName pk.1 == "s.jpg".data) := by
  have h := c2_discover_natural_sorted_stable exDirTie
    [(pTieB, AssetKind.Image), (pTieA, AssetKind.Image)] (by decide)
  exact ⟨h.1, h.2.2 "s.jpg".data⟩

/-- C2, counterexample to the claim as stated: two files named `s.jpg`
in sibling directories `b` and `a`, traversed `b` first.  The returned
order keeps the `b` path first although the `a` path is strictly smaller
as a full path (the filenames tie), so ties are not broken by comparing
the full path. -/
theorem c2_tie_order_counterexample :
    discover exDirTie =
      .ok [(pTieB, AssetKind.Image), (pTieA, AssetKind.Image)] ∧
    natCompare (baseName pTieA) (baseName pTieB) = .eq ∧
    natCompare (joinPath pTieA) (joinPath pTieB) = .lt := by
  decide

/-! ### Claim C7: parallel fan-out order independence -/

theorem filterMap_congr_fn {f g : α → Option β} :
    ∀ {l : List α}, (∀ a ∈ l, f a = g a) → l.filterMap f = l.filterMap g := by
  intro l
  induction l with
  | nil => intro _; rfl
  | cons x xs ih =>
    intro h
    rw [List.filterMap_cons, List.filterMap_cons,
      h x (List.mem_cons_self x xs), ih (fun a ha => h a (List.mem_cons_of_mem x ha))]

theorem range_filterMap_get (l : List β) :
    (List.range l.length).filterMap (fun j => l.get? j) = l := by
  induction l with
  | nil => rfl
  | cons x xs ih =>
    rw [List.length_cons, List.range_succ_eq_map, List.filterMap_cons,
      List.filterMap_map]
    show x :: (List.range xs.length).filterMap (fun j => xs.get? j) = x :: xs
    rw [ih]

theorem find?_deliveredOutcomes (results : List (Except PErr Asset))
    (order : List Nat) (j : Nat) (r : Except PErr Asset)
    (hj : results.get? j = some r) (hmem : j ∈ order) :
    (deliveredOutcomes results order).find? (fun q => q.1 == j) =
      some (j, r) := by
  induction order with
  | nil => cases hmem
  | cons i order ih =>
    simp only [deliveredOutcomes, List.filterMap_cons]
    cases hri : results.get? i with
    | none =>
      have hij : j ≠ i := fun hh => by rw [hh, hri] at hj; cases hj
      show (deliveredOutcomes results order).find? (fun q => q.1 == j) =
        some (j, r)
      exact ih (by rcases List.mem_cons.mp hmem with rfl | hh
                   · exact absurd rfl hij
                   · exact hh)
    | some ri =>
      show ((i, ri) :: deliveredOutcomes results order).find?
        (fun q => q.1 == j) = some (j, r)
      by_cases hij : i = j
      · subst hij
        rw [hri] at hj
        injection hj with hj
        subst hj
        exact List.find?_cons_of_pos _ (by simp)
      · rw [List.find?_cons_of_neg _ (by simp [hij])]
        exact ih (by rcases List.mem_cons.mp hmem with rfl | hh
                     · exact absurd rfl (fun hh2 => hij hh2.symm)
                     · exact hh)

theorem collectSlots_delivered (results : List (Except PErr Asset))
    (order : List Nat) (hperm : order.Perm (List.range results.length)) :
    collectSlots results.length (deliveredOutcomes results order) = results := by
  unfold collectSlots
  have hpt : ∀ j ∈ List.range results.length,
      ((deliveredOutcomes results order).find? (fun q => q.1 == j)).map
        (fun q => q.2) = results.get? j := by
    intro j hj
    have hjlt : j < results.length := List.mem_range.mp hj
    obtain ⟨r, hr⟩ : ∃ r, results.get? j = some r := by
      cases hh : results.get? j with
      | none => exact absurd (List.get?_eq_none.mp hh) (by omega)
      | some r => exact ⟨r, rfl⟩
    rw [find?_deliveredOutcomes results order j r hr (hperm.mem_iff.mpr hj), hr]
    rfl
  rw [filterMap_congr_fn hpt]
  exact range_filterMap_get results

/-- C7 (confirmed): the parallel fan-out's output does not depend on
the completion order — any two permutations of the index range give the
same result, equal to `process_all` — and the successful records come
out sorted by the natural comparison of their filenames. -/
theorem c7_parallel_order_independent (env : ProcessEnv)
    (assets : List (FsPath × AssetKind)) (thumbDir : FsPath) (g ao : Bool)
    (order1 order2 : List Nat)
    (h1 : order1.Perm (List.range assets.length))
    (h2 : order2.Perm (List.range assets.length)) :
    process_allPar env assets thumbDir g ao order1 =
      process_allPar env assets thumbDir g ao order2 ∧
    process_allPar env assets thumbDir g ao order1 =
      process_all env assets thumbDir g ao ∧
    (process_allPar env assets thumbDir g ao order1).1.Pairwise
      (fun x y => assetLe x y = true) := by
  have hlen : (parResults env assets thumbDir g ao).length = assets.length := by
    unfold parResults
    simp [List.enum_length]
  have hres : ∀ order, order.Perm (List.range assets.length) →
      collectSlots assets.length
        (deliveredOutcomes (parResults env assets thumbDir g ao) order) =
        parResults env assets thumbDir g ao := by
    intro order ho
    rw [← hlen]
    exact collectSlots_delivered _ order (by rw [hlen]; exact ho)
  refine ⟨?_, ?_, ?_⟩
  · unfold process_allPar
    rw [hres order1 h1, hres order2 h2]
  · unfold process_allPar process_all
    rw [hres order1 h1]
  · unfold process_allPar
    rw [hres order1 h1]
    exact sortBy_pairwise assetLe assetLe_total
      (fun x y z => assetLe_trans x y z) _

/-- C7, witness: two assets, completion orders `[1, 0]` and `[0, 1]`
give the same output, equal to `process_all`. -/
theorem c7_parallel_order_independent_witness :
    process_allPar noEnv exTwoAssets ["t".data] true false [1, 0] =
      process_allPar noEnv exTwoAssets ["t".data] true false [0, 1] ∧
    process_allPar noEnv exTwoAssets ["t".data] true false [1, 0] =
      process_all noEnv exTwoAssets ["t".data] true false := by
  have h := c7_parallel_order_independent noEnv exTwoAssets ["t".data] true false
    [1, 0] [0, 1] (by decide) (by decide)
  exact ⟨h.1, h.2.1⟩

/-! ### Claim C5: behaviour when every asset fails -/

/-- C5 (corrected): in batch mode, zero successful records abort the
run with the fatal "No assets could be processed" error before the
render delegate is invoked; in live-dashboard mode there is no such
check — whenever the pipeline reaches processing (discovery and temp
dir succeeded) it invokes the render delegate, whatever the number of
successes. -/
theorem c5_zero_success_amended (benv : BatchEnv) (pe : PipelineEnv) :
    (∀ found, discover benv.dir = .ok found → benv.tempdirOk = true →
      (process_all benv.penv found benv.thumbDir (!benv.manifestOnly)
        benv.autoOrient).1 = [] →
      batchRun benv =
        { renderCalled := false, result := .error .noProcessed }) ∧
    (∀ found, discover pe.dir = .ok found → pe.tempdirOk = true →
      (pipeline pe).renderCalled = true) := by
  constructor
  · intro found hdisc htd hempty
    unfold batchRun
    rw [hdisc, htd]
    simp only [Bool.not_true, Bool.false_eq_true, if_false]
    rw [if_pos (by simp [hempty])]
  · intro found hdisc htd
    unfold pipeline
    rw [hdisc, htd]
    simp only [Bool.not_true, Bool.false_eq_true, if_false]
    split <;> rfl

/-- C5, witness: concrete environments in which the only asset fails to
process — the batch run aborts without rendering, and the live pipeline
still calls the render delegate. -/
theorem c5_zero_success_amended_witness :
    batchRun exBatchFail =
      { renderCalled := false, result := .error .noProcessed } ∧
    (pipeline exPipeFail).renderCalled = true := by
  have h := c5_zero_success_amended exBatchFail exPipeFail
  exact ⟨h.1 [(pX, AssetKind.Image)] (by decide) (by decide) (by decide),
         h.2 [(pX, AssetKind.Image)] (by decide) (by decide)⟩

/-- C5, counterexample to the claim as stated: a live-dashboard run in
which the only discovered asset fails to process.  Zero records succeed,
yet the pipeline still emits `Rendering`, invokes the render delegate
and ends with `Done` (a successful run), instead of aborting with a
fatal error and skipping the delegate. -/
theorem c5_live_mode_counterexample :
    (pipeline exPipeFail).msgs =
      [Msg.AssetFound "x.jpg".data "image".data, Msg.ScanDone 1,
       Msg.Processing 0, Msg.Failed 0 (.statErr pX), Msg.Rendering,
       Msg.Done "out.pdf".data 0] ∧
    (pipeline exPipeFail).renderCalled = true ∧
    (pipeline exPipeFail).result = .ok () := by
  decide

/-! ### Claim C6: videos never fail on probe or extractor -/

theorem process_video_probe_none_fields (env : ProcessEnv) (a : Asset)
    (p td : FsPath) (i : Nat) (g : Bool) (hp : env.probe p = none) :
    (process_video env a p td i g).width = a.width ∧
    (process_video env a p td i g).height = a.height ∧
    (process_video env a p td i g).codec = a.codec ∧
    (process_video env a p td i g).duration = a.duration := by
  unfold process_video
  rw [hp]
  cases g
  · exact ⟨rfl, rfl, rfl, rfl⟩
  · by_cases he : env.extractOk p (thumbPathOf td i) <;> simp [he]

theorem applyProbe_thumbnail (env : ProcessEnv) (a : Asset) (out : ProbeOut) :
    (applyProbe env a out).thumbnail_path = a.thumbnail_path := by
  unfold applyProbe
  cases firstVideoStream out.streams <;> cases out.durationStr <;> rfl

theorem process_video_thumbnail (env : ProcessEnv) (a : Asset)
    (p td : FsPath) (i : Nat) (g : Bool)
    (he : env.extractOk p (thumbPathOf td i) = false) :
    (process_video env a p td i g).thumbnail_path = a.thumbnail_path := by
  unfold process_video
  have hthumb : ∀ b : Asset,
      (if g then
        (if env.extractOk p (thumbPathOf td i)
          then { b with thumbnail_path := some (thumbPathOf td i) } else b)
      else b).thumbnail_path = b.thumbnail_path := by
    intro b
    cases g
    · rfl
    · rw [if_pos rfl, if_neg (by simp [he])]
  cases hpr : env.probe p with
  | none => exact hthumb a
  | some out =>
    have h1 := hthumb (applyProbe env a out)
    have h2 := applyProbe_thumbnail env a out
    exact h1.trans h2

/-- C6 (confirmed): for a video asset (any path with a file name) the
external probe and frame extractor never produce a `Failure`: the
outcome fails exactly on a stat failure; when the stat succeeds the
outcome is `Success`, a probe failure leaves width, height, codec and
duration absent, and an extractor failure leaves the thumbnail path
absent. -/
theorem c6_video_never_fails (env : ProcessEnv) (p thumbDir : FsPath)
    (i : Nat) (g ao : Bool) (f : List Char) (hf : fileName p = some f) :
    (env.stat p = none →
      process_one env p .Video thumbDir i g ao = .error (.statErr p)) ∧
    (∀ sz, env.stat p = some sz →
      ∃ a, process_one env p .Video thumbDir i g ao = .ok a ∧
        (env.probe p = none →
          a.width = none ∧ a.height = none ∧ a.codec = none ∧
          a.duration = none) ∧
        (env.extractOk p (thumbPathOf thumbDir i) = false →
          a.thumbnail_path = none)) := by
  constructor
  · intro hs
    unfold process_one
    rw [hf, hs]
  · intro sz hs
    have hform : process_one env p .Video thumbDir i g ao =
        .ok (process_video env
          { filename := f, kind := .Video, width := none, height := none,
            file_size := sz, format := ((pathExt p).getD []).map Char.toUpper,
            color_space := none, duration := none, codec := none,
            thumbnail_path := none } p thumbDir i g) := by
      unfold process_one
      rw [hf, hs]
    refine ⟨_, hform, ?_, ?_⟩
    · intro hp
      exact process_video_probe_none_fields env _ p thumbDir i g hp
    · intro he
      exact process_video_thumbnail env _ p thumbDir i g he

/-- C6, witness: a video whose stat succeeds while probe and extractor
fail still comes out as a `Success` with the probe fields and the
thumbnail absent. -/
theorem c6_video_never_fails_witness :
    ∃ a, process_one statEnv pV .Video ["t".data] 0 true false = .ok a ∧
      (a.width = none ∧ a.height = none ∧ a.codec = none ∧
        a.duration = none) ∧
      a.thumbnail_path = none := by
  obtain ⟨a, hok, hprobe, hthumb⟩ :=
    (c6_video_never_fails statEnv pV ["t".data] 0 true false "v.mp4".data
      (by decide)).2 100 (by decide)
  exact ⟨a, hok, hprobe (by decide), hthumb (by decide)⟩

/-! ### Claim C4: ordering of the event stream -/

theorem msg_flags_assetFound {m : Msg} (h : isAssetFound m = true) (j : Nat) :
    finishAt j m = false ∧ processedAt j m = false ∧ failedAt j m = false ∧
    processingAt j m = false ∧ isScanDone m = false ∧ isRendering m = false ∧
    isProcMsg m = false ∧ isFinalMsg m = false := by
  cases m <;> simp_all [isAssetFound, finishAt, processedAt, failedAt,
    processingAt, isScanDone, isRendering, isProcMsg, isFinalMsg]

theorem msg_flags_procMsg {m : Msg} (h : isProcMsg m = true) :
    isAssetFound m = false ∧ isScanDone m = false ∧ isRendering m = false ∧
    isFinalMsg m = false := by
  cases m <;> simp_all [isProcMsg, isAssetFound, isScanDone, isRendering,
    isFinalMsg]

theorem msg_flags_finalMsg {m : Msg} (h : isFinalMsg m = true) (j : Nat) :
    finishAt j m = false ∧ processedAt j m = false ∧ failedAt j m = false ∧
    processingAt j m = false ∧ isScanDone m = false ∧ isRendering m = false ∧
    isProcMsg m = false ∧ isAssetFound m = false := by
  cases m <;> simp_all [isFinalMsg, finishAt, processedAt, failedAt,
    processingAt, isScanDone, isRendering, isProcMsg, isAssetFound]

theorem founds_assetFound (found : List (FsPath × AssetKind)) :
    ∀ m ∈ found.map (fun pk => Msg.AssetFound (fnameOrQ pk.1) (kindStr pk.2)),
      isAssetFound m = true := by
  intro m hm
  obtain ⟨pk, _, rfl⟩ := List.mem_map.mp hm
  rfl

theorem pairwise_phase_split {α : Type _} {p q : α → Bool} {A B : List α}
    (hA : ∀ a ∈ A, p a = false) (hB : ∀ b ∈ B, q b = false) :
    List.Pairwise (fun a b => p a = true → q b = true → False) (A ++ B) := by
  rw [List.pairwise_append]
  refine ⟨List.pairwise_of_forall_mem_list (fun a ha b _ => ?_),
          List.pairwise_of_forall_mem_list (fun a _ b hb => ?_),
          fun a ha b _ => ?_⟩
  · intro hp
    rw [hA a ha] at hp
    cases hp
  · intro _ hq
    rw [hB b hb] at hq
    cases hq
  · intro hp
    rw [hA a ha] at hp
    cases hp

theorem countP_zero_of_all_false {p : Msg → Bool} {l : List Msg}
    (h : ∀ m ∈ l, p m = false) : l.countP p = 0 :=
  List.countP_eq_zero.mpr (fun a ha => by simp [h a ha])

theorem seqSteps_mem_proc (env : ProcessEnv) (td : FsPath) (ao : Bool) :
    ∀ (l : List (FsPath × AssetKind)) (i : Nat),
      ∀ m ∈ (seqSteps env td ao l i).1, isProcMsg m = true := by
  intro l
  induction l with
  | nil =>
    intro i m hm
    cases hm
  | cons pk rest ih =>
    intro i m hm
    cases hpo : process_one env pk.1 pk.2 td i true ao with
    | ok a =>
      simp only [seqSteps, hpo] at hm
      rcases List.mem_cons.mp hm with rfl | hm1
      · rfl
      · rcases List.mem_cons.mp hm1 with rfl | hm2
        · rfl
        · exact ih (i + 1) m hm2
    | error e =>
      simp only [seqSteps, hpo] at hm
      rcases List.mem_cons.mp hm with rfl | hm1
      · rfl
      · rcases List.mem_cons.mp hm1 with rfl | hm2
        · rfl
        · exact ih (i + 1) m hm2

theorem seqSteps_counts (env : ProcessEnv) (td : FsPath) (ao : Bool) :
    ∀ (l : List (FsPath × AssetKind)) (i j : Nat),
      ((seqSteps env td ao l i).1.countP (processedAt j) +
        (seqSteps env td ao l i).1.countP (failedAt j) ≤ 1) ∧
      ((seqSteps env td ao l i).1.countP (processingAt j) ≤ 1) ∧
      (j < i → (seqSteps env td ao l i).1.countP (processedAt j) = 0 ∧
        (seqSteps env td ao l i).1.countP (failedAt j) = 0 ∧
        (seqSteps env td ao l i).1.countP (processingAt j) = 0) := by
  intro l
  induction l with
  | nil =>
    intro i j
    simp [seqSteps]
  | cons pk rest ih =>
    intro i j
    have IH := ih (i + 1) j
    cases hpo : process_one env pk.1 pk.2 td i true ao with
    | ok a =>
      simp only [seqSteps, hpo, List.countP_cons]
      by_cases hij : i = j
      · subst hij
        have h0 := IH.2.2 (by omega)
        simp [processedAt, failedAt, processingAt, h0.1, h0.2.1, h0.2.2]
      · have hbe : (i == j) = false := by simp [hij]
        simp only [processedAt, failedAt, processingAt, hbe,
          Bool.false_eq_true, if_false, Nat.add_zero]
        exact ⟨IH.1, IH.2.1, fun hj => IH.2.2 (by omega)⟩
    | error e =>
      simp only [seqSteps, hpo, List.countP_cons]
      by_cases hij : i = j
      · subst hij
        have h0 := IH.2.2 (by omega)
        simp [processedAt, failedAt, processingAt, h0.1, h0.2.1, h0.2.2]
      · have hbe : (i == j) = false := by simp [hij]
        simp only [processedAt, failedAt, processingAt, hbe,
          Bool.false_eq_true, if_false, Nat.add_zero]
        exact ⟨IH.1, IH.2.1, fun hj => IH.2.2 (by omega)⟩

theorem seqSteps_finish_sublist (env : ProcessEnv) (td : FsPath) (ao : Bool) :
    ∀ (l : List (FsPath × AssetKind)) (i : Nat) (j : Nat) (m : Msg),
      m ∈ (seqSteps env td ao l i).1 → finishAt j m = true →
      [Msg.Processing j, m].Sublist (seqSteps env td ao l i).1 := by
  intro l
  induction l with
  | nil =>
    intro i j m hm _
    cases hm
  | cons pk rest ih =>
    intro i j m hm hf
    cases hpo : process_one env pk.1 pk.2 td i true ao with
    | ok a =>
      simp only [seqSteps, hpo] at hm ⊢
      rcases List.mem_cons.mp hm with rfl | hm1
      · simp [finishAt, processedAt, failedAt] at hf
      · rcases List.mem_cons.mp hm1 with rfl | hm2
        · have hji : i = j := by
            simpa [finishAt, processedAt, failedAt] using hf
          subst hji
          exact List.Sublist.cons₂ _ (List.Sublist.cons₂ _ (List.nil_sublist _))
        · exact List.Sublist.cons _ (List.Sublist.cons _ (ih (i + 1) j m hm2 hf))
    | error e =>
      simp only [seqSteps, hpo] at hm ⊢
      rcases List.mem_cons.mp hm with rfl | hm1
      · simp [finishAt, processedAt, failedAt] at hf
      · rcases List.mem_cons.mp hm1 with rfl | hm2
        · have hji : i = j := by
            simpa [finishAt, processedAt, failedAt] using hf
          subst hji
          exact List.Sublist.cons₂ _ (List.Sublist.cons₂ _ (List.nil_sublist _))
        · exact List.Sublist.cons _ (List.Sublist.cons _ (ih (i + 1) j m hm2 hf))

theorem c4_main_shape (env : ProcessEnv) (td : FsPath) (ao : Bool)
    (found : List (FsPath × AssetKind)) (n : Nat) (fin : Msg)
    (hfin : isFinalMsg fin = true) (T : List Msg)
    (hT : T =
      found.map (fun pk => Msg.AssetFound (fnameOrQ pk.1) (kindStr pk.2)) ++
        [Msg.ScanDone n] ++ (seqSteps env td ao found 0).1 ++
        [Msg.Rendering] ++ [fin]) :
    (∀ j m, m ∈ T → finishAt j m = true → [Msg.Processing j, m].Sublist T) ∧
    (∀ j, T.countP (processedAt j) ≤ 1 ∧ T.countP (failedAt j) ≤ 1 ∧
      T.countP (processingAt j) ≤ 1) ∧
    T.Pairwise (fun a b => isScanDone a = true → isAssetFound b = true → False) ∧
    T.Pairwise (fun a b => isRendering a = true → isProcMsg b = true → False) ∧
    (∃ m, T.getLast? = some m ∧ isFinalMsg m = true) := by
  subst hT
  refine ⟨?_, ?_, ?_, ?_, ?_⟩
  · intro j m hm hf
    have hmS : m ∈ (seqSteps env td ao found 0).1 := by
      rcases List.mem_append.mp hm with hm1 | hm2
      · rcases List.mem_append.mp hm1 with hm3 | hm4
        · rcases List.mem_append.mp hm3 with hm5 | hm6
          · rcases List.mem_append.mp hm5 with hm7 | hm8
            · exact absurd hf (by
                simp [(msg_flags_assetFound (founds_assetFound found m hm7) j).1])
            · obtain rfl := List.mem_singleton.mp hm8
              simp [finishAt, processedAt, failedAt] at hf
          · exact hm6
        · obtain rfl := List.mem_singleton.mp hm4
          simp [finishAt, processedAt, failedAt] at hf
      · obtain rfl := List.mem_singleton.mp hm2
        exact absurd hf (by simp [(msg_flags_finalMsg hfin j).1])
    have hsub := seqSteps_finish_sublist env td ao found 0 j m hmS hf
    have hS1 := List.sublist_append_right
      (found.map (fun pk => Msg.AssetFound (fnameOrQ pk.1) (kindStr pk.2)) ++
        [Msg.ScanDone n]) (seqSteps env td ao found 0).1
    have hS2 := hS1.trans (List.sublist_append_left _ [Msg.Rendering])
    have hS3 := hS2.trans (List.sublist_append_left _ [fin])
    exact hsub.trans hS3
  · intro j
    have hF0 : ∀ p : Msg → Bool, (∀ m, isAssetFound m = true → p m = false) →
        (found.map (fun pk =>
          Msg.AssetFound (fnameOrQ pk.1) (kindStr pk.2))).countP p = 0 :=
      fun p hp =>
        countP_zero_of_all_false (fun m hm => hp m (founds_assetFound found m hm))
    have h1 := hF0 (processedAt j) (fun m hm => (msg_flags_assetFound hm j).2.1)
    have h2 := hF0 (failedAt j) (fun m hm => (msg_flags_assetFound hm j).2.2.1)
    have h3 := hF0 (processingAt j)
      (fun m hm => (msg_flags_assetFound hm j).2.2.2.1)
    have hfin1 := (msg_flags_finalMsg hfin j).2.1
    have hfin2 := (msg_flags_finalMsg hfin j).2.2.1
    have hfin3 := (msg_flags_finalMsg hfin j).2.2.2.1
    have hc := seqSteps_counts env td ao found 0 j
    have hc1 := hc.1
    have hc2 := hc.2.1
    refine ⟨?_, ?_, ?_⟩ <;>
      simp only [List.countP_append, List.countP_cons, List.countP_nil,
        h1, h2, h3, hfin1, hfin2, hfin3] <;>
      simp only [processedAt, failedAt, processingAt, Bool.false_eq_true,
        if_false, Nat.add_zero, Nat.zero_add] <;>
      omega
  · have hEq :
        found.map (fun pk => Msg.AssetFound (fnameOrQ pk.1) (kindStr pk.2)) ++
          [Msg.ScanDone n] ++ (seqSteps env td ao found 0).1 ++
          [Msg.Rendering] ++ [fin] =
        found.map (fun pk => Msg.AssetFound (fnameOrQ pk.1) (kindStr pk.2)) ++
          ([Msg.ScanDone n] ++
            ((seqSteps env td ao found 0).1 ++ ([Msg.Rendering] ++ [fin]))) := by
      simp [List.append_assoc]
    rw [hEq]
    refine pairwise_phase_split (fun a ha => ?_) (fun b hb => ?_)
    · exact (msg_flags_assetFound (founds_assetFound found a ha) 0).2.2.2.2.1
    · rcases List.mem_append.mp hb with hb1 | hb2
      · obtain rfl := List.mem_singleton.mp hb1
        rfl
      · rcases List.mem_append.mp hb2 with hb3 | hb4
        · exact (msg_flags_procMsg (seqSteps_mem_proc env td ao found 0 b hb3)).1
        · rcases List.mem_append.mp hb4 with hb5 | hb6
          · obtain rfl := List.mem_singleton.mp hb5
            rfl
          · obtain rfl := List.mem_singleton.mp hb6
            exact (msg_flags_finalMsg hfin 0).2.2.2.2.2.2.2
  · have hEq :
        found.map (fun pk => Msg.AssetFound (fnameOrQ pk.1) (kindStr pk.2)) ++
          [Msg.ScanDone n] ++ (seqSteps env td ao found 0).1 ++
          [Msg.Rendering] ++ [fin] =
        ((found.map (fun pk => Msg.AssetFound (fnameOrQ pk.1) (kindStr pk.2)) ++
            ([Msg.ScanDone n] ++ (seqSteps env td ao found 0).1)) ++
          ([Msg.Rendering] ++ [fin])) := by
      simp [List.append_assoc]
    rw [hEq]
    refine pairwise_phase_split (fun a ha => ?_) (fun b hb => ?_)
    · rcases List.mem_append.mp ha with ha1 | ha2
      · exact (msg_flags_assetFound (founds_assetFound found a ha1) 0).2.2.2.2.2.1
      · rcases List.mem_append.mp ha2 with ha3 | ha4
        · obtain rfl := List.mem_singleton.mp ha3
          rfl
        · exact (msg_flags_procMsg (seqSteps_mem_proc env td ao found 0 a ha4)).2.2.1
    · rcases List.mem_append.mp hb with hb1 | hb2
      · obtain rfl := List.mem_singleton.mp hb1
        rfl
      · obtain rfl := List.mem_singleton.mp hb2
        exact (msg_flags_finalMsg hfin 0).2.2.2.2.2.2.1
  · exact ⟨fin, List.getLast?_concat _, hfin⟩

/-- C4 (confirmed): in the stream the dashboard receives, every
`Processed j`/`Failed j` is preceded by `Processing j` (as a sublist),
each index finishes at most once in each of those kinds and starts at
most once, no `AssetFound` follows a `ScanDone`, no
`Processing`/`Processed`/`Failed` follows `Rendering`, and the last
event is always `Done` or `Error`. -/
theorem c4_event_ordering (env : PipelineEnv) :
    (∀ j m, m ∈ runTrace env → finishAt j m = true →
      [Msg.Processing j, m].Sublist (runTrace env)) ∧
    (∀ j, (runTrace env).countP (processedAt j) ≤ 1 ∧
      (runTrace env).countP (failedAt j) ≤ 1 ∧
      (runTrace env).countP (processingAt j) ≤ 1) ∧
    (runTrace env).Pairwise
      (fun a b => isScanDone a = true → isAssetFound b = true → False) ∧
    (runTrace env).Pairwise
      (fun a b => isRendering a = true → isProcMsg b = true → False) ∧
    (∃ m, (runTrace env).getLast? = some m ∧ isFinalMsg m = true) := by
  cases hdisc : discover env.dir with
  | error e =>
    have hT : runTrace env = [Msg.Error (RunErr.fromDiscover e)] := by
      unfold runTrace pipeline
      rw [hdisc]
      with_unfolding_all rfl
    rw [hT]
    refine ⟨?_, ?_, ?_, ?_, ?_⟩
    · intro j m hm hf
      obtain rfl := List.mem_singleton.mp hm
      simp [finishAt, processedAt, failedAt] at hf
    · intro j
      refine ⟨?_, ?_, ?_⟩ <;>
        simp [List.countP_cons, processedAt, failedAt, processingAt]
    · simp
    · simp
    · exact ⟨_, rfl, rfl⟩
  | ok found =>
    cases htd : env.tempdirOk with
    | false =>
      have hT : runTrace env =
          (found.map (fun pk => Msg.AssetFound (fnameOrQ pk.1) (kindStr pk.2)) ++
            [Msg.ScanDone found.length]) ++ [Msg.Error RunErr.tempdirFail] := by
        unfold runTrace pipeline
        rw [hdisc, htd]
        with_unfolding_all rfl
      rw [hT]
      refine ⟨?_, ?_, ?_, ?_, ?_⟩
      · intro j m hm hf
        rcases List.mem_append.mp hm with hm1 | hm2
        · rcases List.mem_append.mp hm1 with hm3 | hm4
          · exact absurd hf (by
              simp [(msg_flags_assetFound (founds_assetFound found m hm3) j).1])
          · obtain rfl := List.mem_singleton.mp hm4
            simp [finishAt, processedAt, failedAt] at hf
        · obtain rfl := List.mem_singleton.mp hm2
          simp [finishAt, processedAt, failedAt] at hf
      · intro j
        have hF0 : ∀ p : Msg → Bool, (∀ m, isAssetFound m = true → p m = false) →
            (found.map (fun pk =>
              Msg.AssetFound (fnameOrQ pk.1) (kindStr pk.2))).countP p = 0 :=
          fun p hp => countP_zero_of_all_false
            (fun m hm => hp m (founds_assetFound found m hm))
        have h1 := hF0 (processedAt j) (fun m hm => (msg_flags_assetFound hm j).2.1)
        have h2 := hF0 (failedAt j) (fun m hm => (msg_flags_assetFound hm j).2.2.1)
        have h3 := hF0 (processingAt j)
          (fun m hm => (msg_flags_assetFound hm j).2.2.2.1)
        refine ⟨?_, ?_, ?_⟩ <;>
          simp [List.countP_append, List.countP_cons, List.countP_nil,
            h1, h2, h3, processedAt, failedAt, processingAt]
      · have hEq :
            (found.map (fun pk => Msg.AssetFound (fnameOrQ pk.1) (kindStr pk.2)) ++
              [Msg.ScanDone found.length]) ++ [Msg.Error RunErr.tempdirFail] =
            found.map (fun pk => Msg.AssetFound (fnameOrQ pk.1) (kindStr pk.2)) ++
              ([Msg.ScanDone found.length] ++ [Msg.Error RunErr.tempdirFail]) := by
          simp [List.append_assoc]
        rw [hEq]
        refine pairwise_phase_split (fun a ha => ?_) (fun b hb => ?_)
        · exact (msg_flags_assetFound (founds_assetFound found a ha) 0).2.2.2.2.1
        · rcases List.mem_append.mp hb with hb1 | hb2
          · obtain rfl := List.mem_singleton.mp hb1
            rfl
          · obtain rfl := List.mem_singleton.mp hb2
            rfl
      · refine List.pairwise_of_forall_mem_list (fun a ha b _ => ?_)
        intro hra hpb
        have hfa : isRendering a = false := by
          rcases List.mem_append.mp ha with ha1 | ha2
          · rcases List.mem_append.mp ha1 with ha3 | ha4
            · exact (msg_flags_assetFound
                (founds_assetFound found a ha3) 0).2.2.2.2.2.1
            · obtain rfl := List.mem_singleton.mp ha4
              rfl
          · obtain rfl := List.mem_singleton.mp ha2
            rfl
        rw [hfa] at hra
        cases hra
      · exact ⟨_, List.getLast?_concat _, rfl⟩
    | true =>
      cases hrd : env.renderOk with
      | true =>
        exact c4_main_shape env.penv env.thumbDir env.autoOrient found
          found.length
          (Msg.Done env.outputStr
            (sortBy assetLe
              (seqSteps env.penv env.thumbDir env.autoOrient found 0).2).length)
          rfl (runTrace env)
          (by unfold runTrace pipeline; rw [hdisc, htd, hrd]; with_unfolding_all rfl)
      | false =>
        exact c4_main_shape env.penv env.thumbDir env.autoOrient found
          found.length (Msg.Error RunErr.renderFail) rfl (runTrace env)
          (by unfold runTrace pipeline; rw [hdisc, htd, hrd]; with_unfolding_all rfl)

/-- C4, witness: in the concrete one-asset failing run, the `Failed 0`
event is preceded by `Processing 0` and `Processed 0` never occurs. -/
theorem c4_event_ordering_witness :
    [Msg.Processing 0, Msg.Failed 0 (PErr.statErr pX)].Sublist
      (runTrace exPipeFail) ∧
    (runTrace exPipeFail).countP (processedAt 0) ≤ 1 := by
  have h := c4_event_ordering exPipeFail
  exact ⟨h.1 0 (Msg.Failed 0 (PErr.statErr pX)) (by decide) (by decide),
    (h.2.1 0).1⟩

end DeliveryProof
